import Mathlib

/-!
Verification of the vinyldns-js client library (`src/vinyldns.js`) against its
natural-language specification.

The development shallowly embeds the request-construction pipeline of the
`VinylDNS` class: `_requestOptions`, `_request` (its aws4 signing step and its
transport callback), `_getOrDelete`, `_createOrUpdate`, `_sync`, and the
constructor.  JavaScript's `JSON.stringify` / `JSON.parse` builtins are embedded
as executable Lean functions over a `Json` value type (numbers are modelled as
integers; JSON strings support the full escape set emitted by `stringify`).
The aws4 signing collaborator and the `urls.js` URL-builder file are not part
of the sources under `src/`; they are modelled from the specification where a
claim needs them (see the doc comments on `aws4sign` and `UrlsState`).
-/

/-- JSON values, the model of JavaScript values that `JSON.stringify` accepts
and `JSON.parse` produces.  Numbers are modelled as integers (the library never
manipulates numeric payloads itself); object members are an ordered association
list, mirroring JavaScript's insertion-ordered object keys. -/
inductive Json : Type where
  | null : Json
  | bool : Bool → Json
  | num : Int → Json
  | str : String → Json
  | arr : List Json → Json
  | obj : List (String × Json) → Json

/-- JavaScript truthiness of a `Json` value, as used by the `opts.body ? ... : ...`
and `opts.method ? ... : ...` ternaries in `_requestOptions`. -/
def jsTruthy : Json → Bool
  | .null => false
  | .bool b => b
  | .num n => n != 0
  | .str s => s != ""
  | .arr _ => true
  | .obj _ => true

/-! ### Decimal digits (for `JSON.stringify` of numbers) -/

/-- The decimal digit character for `d < 10`. -/
def digitChar (d : Nat) : Char := Char.ofNat (48 + d)

/-- Numeric value of a decimal digit character. -/
def dval (c : Char) : Nat := c.toNat - 48

/-- Decimal digits of `n`, least significant first (empty for `0`). -/
def digitsRev (n : Nat) : List Char :=
  if h : n = 0 then [] else digitChar (n % 10) :: digitsRev (n / 10)
decreasing_by exact Nat.div_lt_self (Nat.pos_of_ne_zero h) (by decide)

/-- Decimal representation of a natural number, most significant digit first. -/
def natDigits (n : Nat) : List Char :=
  if 0 < n then (digitsRev n).reverse else ['0']

/-- Decimal representation of an integer, as emitted by `JSON.stringify`. -/
def encInt (n : Int) : List Char :=
  if n < 0 then '-' :: natDigits n.natAbs else natDigits n.toNat

/-! ### String escaping (the escape set emitted by `JSON.stringify`) -/

/-- Lower-case hexadecimal digit character for `d < 16`. -/
def hexChar (d : Nat) : Char :=
  if d < 10 then Char.ofNat (48 + d) else Char.ofNat (87 + d)

/-- Escape one character the way `JSON.stringify` does: `"` and `\` get a
backslash escape, the named control characters use their short forms, any other
control character becomes a `\u00XX` escape, and everything else is emitted
verbatim. -/
def escChar (c : Char) : List Char :=
  if c = '"' then ['\\', '"']
  else if c = '\\' then ['\\', '\\']
  else if c = '\n' then ['\\', 'n']
  else if c = '\t' then ['\\', 't']
  else if c = '\r' then ['\\', 'r']
  else if c = '\x08' then ['\\', 'b']
  else if c = '\x0c' then ['\\', 'f']
  else if c.toNat < 32 then
    '\\' :: 'u' :: ['0', '0', hexChar (c.toNat / 16), hexChar (c.toNat % 16)]
  else [c]

/-- Escape a character sequence (body of a JSON string literal). -/
def escList : List Char → List Char
  | [] => []
  | c :: cs => escChar c ++ escList cs

/-- A JSON string literal: opening quote, escaped body, closing quote. -/
def encStr (s : String) : List Char :=
  '"' :: (escList s.data ++ ['"'])

/-! ### `JSON.stringify` (no indentation, as called by `_requestOptions`) -/

mutual

/-- Characters emitted by `JSON.stringify` for a value. -/
def encV : Json → List Char
  | .num n => encInt n
  | .str s => encStr s
  | .arr vs => '[' :: encArrBody vs
  | .obj ms => '\x7b' :: encObjBody ms
  | .null => 'n' :: ['u', 'l', 'l']
  | .bool true => 't' :: ['r', 'u', 'e']
  | .bool false => 'f' :: ['a', 'l', 's', 'e']

/-- Array body after the opening bracket. -/
def encArrBody : List Json → List Char
  | [] => [']']
  | v :: vs => encV v ++ encElemsTail vs

/-- Remaining array elements after the first, each preceded by a comma. -/
def encElemsTail : List Json → List Char
  | [] => [']']
  | v :: vs => ',' :: (encV v ++ encElemsTail vs)

/-- Object body after the opening brace. -/
def encObjBody : List (String × Json) → List Char
  | [] => ['\x7d']
  | (k, v) :: ms => encStr k ++ (':' :: (encV v ++ encMembersTail ms))

/-- Remaining object members after the first, each preceded by a comma. -/
def encMembersTail : List (String × Json) → List Char
  | [] => ['\x7d']
  | (k, v) :: ms => ',' :: (encStr k ++ (':' :: (encV v ++ encMembersTail ms)))

end

/-- Model of `JSON.stringify(v)` with no spacing, exactly as `_requestOptions`
invokes it. -/
def Json.stringify (v : Json) : String := String.mk (encV v)

/-! ### `JSON.parse` -/

/-- JSON whitespace. -/
def isWs (c : Char) : Bool := c = ' ' || c = '\n' || c = '\t' || c = '\r'

/-- Skip leading JSON whitespace. -/
def skipWs : List Char → List Char
  | [] => []
  | c :: cs => if isWs c then skipWs cs else c :: cs

/-- Hexadecimal digit test (for `\uXXXX` escapes). -/
def isHexDigit (c : Char) : Bool :=
  c.isDigit || ('a' ≤ c && c ≤ 'f') || ('A' ≤ c && c ≤ 'F')

/-- Value of a hexadecimal digit character. -/
def hexVal (c : Char) : Nat :=
  if c.isDigit then c.toNat - 48
  else if 'a' ≤ c && c ≤ 'f' then c.toNat - 87
  else c.toNat - 55

/-- Decode a single-character escape (everything except `\u`). -/
def simpleUnesc (e : Char) : Option Char :=
  if e = '"' then some '"'
  else if e = '\\' then some '\\'
  else if e = '/' then some '/'
  else if e = 'n' then some '\n'
  else if e = 't' then some '\t'
  else if e = 'r' then some '\r'
  else if e = 'b' then some '\x08'
  else if e = 'f' then some '\x0c'
  else none

/-- Parse the body of a JSON string literal (the opening quote has already been
consumed), accumulating decoded characters in reverse.  Raw control characters
are rejected, as `JSON.parse` rejects them. -/
def parseStrAux : List Char → List Char → Option (String × List Char)
  | _, [] => none
  | acc, '"' :: r => some (String.mk acc.reverse, r)
  | _, '\\' :: [] => none
  | acc, '\\' :: 'u' :: h1 :: h2 :: h3 :: h4 :: r3 =>
    if isHexDigit h1 && isHexDigit h2 && isHexDigit h3 && isHexDigit h4 then
      parseStrAux
        (Char.ofNat (((hexVal h1 * 16 + hexVal h2) * 16 + hexVal h3) * 16 + hexVal h4)
          :: acc) r3
    else none
  | _, '\\' :: 'u' :: _ => none
  | acc, '\\' :: e :: r2 =>
    match simpleUnesc e with
    | some d => parseStrAux (d :: acc) r2
    | none => none
  | acc, c :: r => if c.toNat < 32 then none else parseStrAux (c :: acc) r

/-- Consume a run of decimal digits, accumulating their value. -/
def parseDigitsAcc (acc : Nat) : List Char → Nat × List Char
  | [] => (acc, [])
  | c :: r => if c.isDigit then parseDigitsAcc (acc * 10 + dval c) r else (acc, c :: r)

/-- Parse a nonempty run of decimal digits. -/
def parseNatNum : List Char → Option (Nat × List Char)
  | [] => none
  | c :: r => if c.isDigit then some (parseDigitsAcc (dval c) r) else none

/-- The family of mutually recursive JSON parsing functions at one fuel level:
value, array body, array tail, object body, object tail. -/
structure Parsers where
  val : List Char → Option (Json × List Char)
  arr : List Char → Option (List Json × List Char)
  arrTail : List Char → Option (List Json × List Char)
  obj : List Char → Option (List (String × Json) × List Char)
  objTail : List Char → Option (List (String × Json) × List Char)

/-- The everywhere-failing parser family (fuel exhausted). -/
def noParse : Parsers :=
  ⟨fun _ => none, fun _ => none, fun _ => none, fun _ => none, fun _ => none⟩

/-- One unfolding of the mutually recursive JSON grammar, over the parser
family `P` used for all recursive positions. -/
def parsersStep (P : Parsers) : Parsers where
  val input :=
    match skipWs input with
    | [] => none
    | c :: r =>
      if c = 'n' then
        match r with
        | 'u' :: 'l' :: 'l' :: r2 => some (Json.null, r2)
        | _ => none
      else if c = 't' then
        match r with
        | 'r' :: 'u' :: 'e' :: r2 => some (Json.bool true, r2)
        | _ => none
      else if c = 'f' then
        match r with
        | 'a' :: 'l' :: 's' :: 'e' :: r2 => some (Json.bool false, r2)
        | _ => none
      else if c = '"' then
        match parseStrAux [] r with
        | some (s, r2) => some (Json.str s, r2)
        | none => none
      else if c = '[' then
        match P.arr r with
        | some (vs, r2) => some (Json.arr vs, r2)
        | none => none
      else if c = '\x7b' then
        match P.obj r with
        | some (ms, r2) => some (Json.obj ms, r2)
        | none => none
      else if c = '-' then
        match parseNatNum r with
        | some (m, r2) => some (Json.num (-(m : Int)), r2)
        | none => none
      else if c.isDigit then
        match parseNatNum (c :: r) with
        | some (m, r2) => some (Json.num (m : Int), r2)
        | none => none
      else none
  arr input :=
    match skipWs input with
    | [] => none
    | c :: r =>
      if c = ']' then some ([], r)
      else
        match P.val (c :: r) with
        | some (v, r2) =>
          match P.arrTail r2 with
          | some (vs, r3) => some (v :: vs, r3)
          | none => none
        | none => none
  arrTail input :=
    match skipWs input with
    | [] => none
    | c :: r =>
      if c = ',' then
        match P.val r with
        | some (v, r2) =>
          match P.arrTail r2 with
          | some (vs, r3) => some (v :: vs, r3)
          | none => none
        | none => none
      else if c = ']' then some ([], r)
      else none
  obj input :=
    match skipWs input with
    | [] => none
    | c :: r =>
      if c = '\x7d' then some ([], r)
      else if c = '"' then
        match parseStrAux [] r with
        | some (k, r2) =>
          match skipWs r2 with
          | ':' :: r3 =>
            match P.val r3 with
            | some (v, r4) =>
              match P.objTail r4 with
              | some (ms, r5) => some ((k, v) :: ms, r5)
              | none => none
            | none => none
          | _ => none
        | none => none
      else none
  objTail input :=
    match skipWs input with
    | [] => none
    | c :: r =>
      if c = ',' then
        match skipWs r with
        | '"' :: r2 =>
          match parseStrAux [] r2 with
          | some (k, r3) =>
            match skipWs r3 with
            | ':' :: r4 =>
              match P.val r4 with
              | some (v, r5) =>
                match P.objTail r5 with
                | some (ms, r6) => some ((k, v) :: ms, r6)
                | none => none
              | none => none
            | _ => none
          | none => none
        | _ => none
      else if c = '\x7d' then some ([], r)
      else none

/-- The fuel-indexed JSON parser family. -/
def parsers : Nat → Parsers
  | 0 => noParse
  | f + 1 => parsersStep (parsers f)

/-- Parse one JSON value. -/
def parseV (f : Nat) : List Char → Option (Json × List Char) := (parsers f).val

/-- Parse an array body (after the opening bracket). -/
def parseArr (f : Nat) : List Char → Option (List Json × List Char) := (parsers f).arr

/-- Parse the remainder of an array after an element. -/
def parseArrTail (f : Nat) : List Char → Option (List Json × List Char) := (parsers f).arrTail

/-- Parse an object body (after the opening brace). -/
def parseObj (f : Nat) : List Char → Option (List (String × Json) × List Char) := (parsers f).obj

/-- Parse the remainder of an object after a member. -/
def parseObjTail (f : Nat) : List Char → Option (List (String × Json) × List Char) :=
  (parsers f).objTail

/-- Model of `JSON.parse`: parse one value, allow trailing whitespace, reject
anything else left over; `none` models the thrown `SyntaxError`.  The fuel
`s.length + 1` dominates the recursion depth of any parse of `s`. -/
def Json.parse (s : String) : Option Json :=
  match parseV (s.length + 1) s.data with
  | some (v, rest) => if (skipWs rest).isEmpty then some v else none
  | none => none

/-! ### The request pipeline of `vinyldns.js` -/

/-- Host and path of a parsed URL, the two fields `_requestOptions` reads from
node's `url.parse`. -/
structure ParsedUrl where
  host : String
  path : String

/-- Drop everything through the `://` scheme separator. -/
def dropToAuthority : List Char → List Char
  | ':' :: '/' :: '/' :: r => r
  | _ :: r => dropToAuthority r
  | [] => []

/-- Does this character end the host portion of a URL? -/
def isHostEnd (c : Char) : Bool := c = '/' || c = '?' || c = '#'

/-- Model of node's `url.parse` for the absolute URLs the URL builder produces:
`host` is the authority after `://`, `path` is pathname plus query (with `/`
substituted when the pathname is empty, and the fragment excluded), matching
the `host` and `path` fields `_requestOptions` reads. -/
def urlParse (u : String) : ParsedUrl :=
  let afterScheme := dropToAuthority u.data
  let hostChars := afterScheme.takeWhile (fun c => !isHostEnd c)
  let rest := (afterScheme.dropWhile (fun c => !isHostEnd c)).takeWhile (fun c => c ≠ '#')
  { host := String.mk hostChars
    path :=
      match rest with
      | [] => "/"
      | '?' :: _ => String.mk ('/' :: rest)
      | _ => String.mk rest }

/-- Model of JavaScript's `String.prototype.toUpperCase` for the ASCII verbs
the facade passes: uppercase every character. -/
def jsToUpperCase (s : String) : String := String.mk (s.data.map Char.toUpper)

/-- The `opts` argument of `_requestOptions`: a URL, an optional method verb,
and an optional body value (absent for GET/DELETE/sync). -/
structure RequestOpts where
  url : String
  method : Option String := none
  body : Option Json := none

/-- The request descriptor `_requestOptions` returns: the object later signed
by aws4 and dispatched by the transport. -/
structure RequestDescriptor where
  host : String
  uri : String
  method : String
  path : String
  headers : List (String × String)
  body : String

/-- Model of `_requestOptions`: parse the URL, uppercase the verb (defaulting
to `GET` for an absent or empty one, per `opts.method ? opts.method.toUpperCase()
: 'GET'`), always set the `Content-Type: application/json` header, and
JSON-encode the body when one is present and truthy (per
`opts.body ? JSON.stringify(opts.body) : ''`). -/
def requestOptions (opts : RequestOpts) : RequestDescriptor :=
  let parsedUrl := urlParse opts.url
  { host := parsedUrl.host
    uri := opts.url
    method :=
      match opts.method with
      | some m => if m = "" then "GET" else jsToUpperCase m
      | none => "GET"
    path := parsedUrl.path
    headers := [("Content-Type", "application/json")]
    body :=
      match opts.body with
      | some b => if jsTruthy b then Json.stringify b else ""
      | none => "" }

/-- The credential pair `_request` passes to `aws4.sign`. -/
structure SignCreds where
  accessKeyId : String
  secretAccessKey : String

/-- Deterministic stand-in for the HMAC-SHA256 chain of the signing scheme:
a pure fold over the bytes of its input. -/
def modelHash (s : String) : Nat :=
  s.data.foldl (fun a c => (a * 131 + c.toNat) % (2 ^ 64)) 5381

/-- Lower-case hexadecimal digits of `n`, least significant first. -/
def hexRev (n : Nat) : List Char :=
  if h : n = 0 then [] else hexChar (n % 16) :: hexRev (n / 16)
decreasing_by exact Nat.div_lt_self (Nat.pos_of_ne_zero h) (by decide)

/-- Lower-case hexadecimal representation of `n`. -/
def hexOfNat (n : Nat) : String :=
  if n = 0 then "0" else String.mk (hexRev n).reverse

/-- Canonical header block: `key:value` pairs, one per line. -/
def canonicalHeaders : List (String × String) → String
  | [] => ""
  | (k, v) :: hs => k ++ ":" ++ v ++ "\n" ++ canonicalHeaders hs

/-- The names of the signed headers. -/
def signedHeaderNames : List (String × String) → List String
  | [] => []
  | (k, _) :: hs => k :: signedHeaderNames hs

/-- Modelled from the spec: the aws4 request signer (`aws4.sign`), an external
collaborator whose source is not part of this repository.  Per spec §4.2 it is
a pure function of the descriptor, the credential pair and the timestamp (the
timestamp, implicit in the JavaScript call, is an explicit argument here): it
builds the canonical request (method, canonical URI, canonical headers, hashed
payload), derives a date-scoped signature through an HMAC chain (modelled by
`modelHash`), and returns the same descriptor augmented with a date header and
an `Authorization` header; method, path, host, uri and body are untouched. -/
def aws4sign (creds : SignCreds) (timestamp : String) (d : RequestDescriptor) :
    RequestDescriptor :=
  let scope := timestamp ++ "/us-east-1/execute-api/aws4_request"
  let canonicalRequest :=
    d.method ++ "\n" ++ d.path ++ "\n" ++ canonicalHeaders d.headers ++ "\n" ++
      hexOfNat (modelHash d.body)
  let stringToSign :=
    "AWS4-HMAC-SHA256" ++ "\n" ++ timestamp ++ "\n" ++ scope ++ "\n" ++
      hexOfNat (modelHash canonicalRequest)
  let signature :=
    hexOfNat (modelHash (creds.secretAccessKey ++ "|" ++ scope ++ "|" ++ stringToSign))
  { d with
    headers := d.headers ++
      [("X-Amz-Date", timestamp),
       ("Authorization",
        "AWS4-HMAC-SHA256 Credential=" ++ creds.accessKeyId ++ "/" ++ scope ++
          ", SignedHeaders=" ++ String.intercalate ";" (signedHeaderNames d.headers) ++
          ", Signature=" ++ signature)] }

/-- Model of the synchronous prefix of `_request`: build the signed request
that is submitted to the transport.  `_request` performs exactly this one
`aws4.sign` call on the descriptor it receives and hands the result, unchanged,
to the `request` transport collaborator. -/
def requestPipeline (creds : SignCreds) (now : String) (opts : RequestOpts) :
    RequestDescriptor :=
  aws4sign creds now (requestOptions opts)

/-- The `opts` built by `_getOrDelete(url, method)`: a URL and a verb, no body. -/
def getOrDeleteOpts (url method : String) : RequestOpts :=
  { url := url, method := some method }

/-- The `opts` built by `_createOrUpdate(resource, url, method)`: a URL, a verb
and the resource as body. -/
def createOrUpdateOpts (resource : Json) (url method : String) : RequestOpts :=
  { url := url, method := some method, body := some resource }

/-- The `opts` built by `_sync(url)`: a URL and the fixed verb `post`, no body. -/
def syncOpts (url : String) : RequestOpts :=
  { url := url, method := some "post" }

/-! ### The transport callback of `_request` -/

/-- The opaque error value the transport may pass to the callback (connection
refused, DNS failure, timeout, ...); the library never inspects it. -/
structure TransportError where
  payload : String

/-- A completion of the transport collaborator: either an error, or a response
carrying a status code and a raw body text. -/
inductive Completion where
  | err (e : TransportError)
  | response (statusCode : Nat) (body : String)

/-- A value the promise can be rejected with: either the transport error object
passed through as-is, or a JavaScript `Error` built with `new Error(message)`. -/
inductive RejectValue where
  | transport (e : TransportError)
  | jsError (message : String)

/-- What one invocation of the transport callback does to the promise:
fulfill it, reject it, or throw out of the callback without settling it
(the promise then stays pending forever). -/
inductive CallbackResult where
  | fulfilled (v : Json)
  | rejected (e : RejectValue)
  | uncaughtThrow (body : String)

/-- Model of the callback `(err, resp) => ...` that `_request` registers with
the transport.  A truthy `err` rejects with the error itself and returns; a
status code of at least 400 rejects with `new Error` over the template literal
embedding the status code and the raw body, and returns; otherwise the callback
evaluates `JSON.parse(resp.body)` — if parsing succeeds, `fulfill` receives the
value; if it throws, the exception escapes the callback uncaught (the argument
of `fulfill` is evaluated before `fulfill` is called), so the promise is never
settled. -/
def requestCallback (c : Completion) : CallbackResult :=
  match c with
  | .err e => .rejected (.transport e)
  | .response statusCode body =>
    if 400 ≤ statusCode then
      .rejected (.jsError (Nat.repr statusCode ++ ": " ++ body))
    else
      match Json.parse body with
      | some v => .fulfilled v
      | none => .uncaughtThrow body

/-! ### The constructor -/

/-- The configuration object passed to `new VinylDNS(config)`; each field may
be absent (`undefined`). -/
structure Config where
  apiUrl : Option String
  accessKeyId : Option String
  secretAccessKey : Option String

/-- Modelled from the spec: the URL-builder state constructed by `new
Urls(config.apiUrl)`, whose source file (`urls.js`) is not under `src/`.  Per
spec §4.1 the URL builder has no error conditions and does not validate its
input, so its constructor merely stores the endpoint it is given. -/
structure UrlsState where
  base : Option String

/-- Model of the `VinylDNS` constructor's resulting instance state. -/
structure Client where
  config : Config
  urls : UrlsState

/-- Model of `constructor(config)`: store the configuration object as-is and
build the URL-builder state from `config.apiUrl`.  The result type records
whether construction threw; the body performs no check that could throw. -/
def construct (config : Config) : Except String Client :=
  .ok { config := config, urls := { base := config.apiUrl } }

/-- Substring containment on strings, used to state that an error message
carries the status code and the response body text. -/
def containsStr (hay needle : String) : Prop :=
  ∃ pre post, hay = pre ++ needle ++ post

/-! ### Digit lemmas -/

/-- Head-of-input test used to state that a suffix cannot extend a number. -/
def noDigitHead : List Char → Bool
  | [] => true
  | c :: _ => !c.isDigit

theorem dval_digitChar (d : Nat) (h : d < 10) : dval (digitChar d) = d := by
  interval_cases d <;> decide

theorem isDigit_digitChar (d : Nat) (h : d < 10) : (digitChar d).isDigit = true := by
  interval_cases d <;> decide

theorem isDigit_not_ws {c : Char} (h : c.isDigit = true) : isWs c = false := by
  cases hw : isWs c
  · rfl
  · exfalso
    simp only [isWs, Bool.or_eq_true, decide_eq_true_eq] at hw
    rcases hw with ((rfl | rfl) | rfl) | rfl <;> exact absurd h (by decide)

theorem isDigit_ne_specials {c : Char} (h : c.isDigit = true) :
    ∀ d ∈ ['n', 't', 'f', '"', '[', '\x7b', '-', ']', '\x7d', ','], c ≠ d := by
  intro d hd
  fin_cases hd <;> rintro rfl <;> exact absurd h (by decide)

theorem digitsRev_zero : digitsRev 0 = [] := by rw [digitsRev]; simp

theorem digitsRev_of_ne {n : Nat} (h : n ≠ 0) :
    digitsRev n = digitChar (n % 10) :: digitsRev (n / 10) := by
  rw [digitsRev]; simp [h]

theorem digitsRev_digits (n : Nat) : ∀ c ∈ digitsRev n, c.isDigit = true := by
  induction n using Nat.strong_induction_on with
  | _ n IH =>
    by_cases h : n = 0
    · subst h; simp [digitsRev_zero]
    · rw [digitsRev_of_ne h]
      intro c hc
      rcases List.mem_cons.mp hc with rfl | hc
      · exact isDigit_digitChar _ (Nat.mod_lt _ (by decide))
      · exact IH (n / 10) (Nat.div_lt_self (Nat.pos_of_ne_zero h) (by decide)) c hc

theorem foldr_digitsRev (n : Nat) :
    List.foldr (fun c a => a * 10 + dval c) 0 (digitsRev n) = n := by
  induction n using Nat.strong_induction_on with
  | _ n IH =>
    by_cases h : n = 0
    · subst h; simp [digitsRev_zero]
    · rw [digitsRev_of_ne h]
      simp only [List.foldr_cons]
      rw [IH (n / 10) (Nat.div_lt_self (Nat.pos_of_ne_zero h) (by decide)),
        dval_digitChar (n % 10) (Nat.mod_lt _ (by decide))]
      omega

theorem natDigits_digits (n : Nat) : ∀ c ∈ natDigits n, c.isDigit = true := by
  unfold natDigits
  by_cases h : 0 < n
  · simp only [h, ite_true]
    intro c hc
    exact digitsRev_digits n c (List.mem_reverse.mp hc)
  · simp [h]

theorem natDigits_ne_nil (n : Nat) : natDigits n ≠ [] := by
  unfold natDigits
  by_cases h : 0 < n
  · simp [h, digitsRev_of_ne (by omega : n ≠ 0)]
  · simp [h]

theorem natDigits_foldl (n : Nat) :
    List.foldl (fun a c => a * 10 + dval c) 0 (natDigits n) = n := by
  unfold natDigits
  by_cases h : 0 < n
  · simp only [h, ite_true]
    rw [List.foldl_reverse]
    exact foldr_digitsRev n
  · have h0 : n = 0 := by omega
    subst h0
    simp
    decide

theorem parseDigitsAcc_append (ds : List Char) (hds : ∀ c ∈ ds, c.isDigit = true) :
    ∀ (a : Nat) (rest : List Char), noDigitHead rest = true →
      parseDigitsAcc a (ds ++ rest) = (List.foldl (fun a c => a * 10 + dval c) a ds, rest) := by
  induction ds with
  | nil =>
    intro a rest hrest
    cases rest with
    | nil => rfl
    | cons c r =>
      simp only [noDigitHead, Bool.not_eq_true'] at hrest
      simp [parseDigitsAcc, hrest]
  | cons d ds IH =>
    intro a rest hrest
    have hd : d.isDigit = true := hds d (by simp)
    simp only [List.cons_append, parseDigitsAcc, hd, if_true, List.foldl_cons]
    exact IH (fun c hc => hds c (by simp [hc])) _ _ hrest

theorem parseNatNum_natDigits (n : Nat) (rest : List Char) (hrest : noDigitHead rest = true) :
    parseNatNum (natDigits n ++ rest) = some (n, rest) := by
  obtain ⟨d, ds, hd⟩ : ∃ d ds, natDigits n = d :: ds := by
    cases hnd : natDigits n with
    | nil => exact absurd hnd (natDigits_ne_nil n)
    | cons d ds => exact ⟨d, ds, rfl⟩
  have hdig := natDigits_digits n
  rw [hd] at hdig
  rw [hd]
  have hd0 : d.isDigit = true := hdig d (by simp)
  simp only [List.cons_append, parseNatNum, hd0, if_true]
  rw [parseDigitsAcc_append ds (fun c hc => hdig c (by simp [hc])) (dval d) rest hrest]
  have hfold : List.foldl (fun a c => a * 10 + dval c) (dval d) ds
      = List.foldl (fun a c => a * 10 + dval c) 0 (d :: ds) := by simp
  rw [hfold, ← hd, natDigits_foldl]

/-! ### String-literal round-trip -/

theorem skipWs_cons_of {c : Char} {l : List Char} (h : isWs c = false) :
    skipWs (c :: l) = c :: l := by
  simp [skipWs, h]

theorem isHexDigit_hexChar (d : Nat) (h : d < 16) : isHexDigit (hexChar d) = true := by
  interval_cases d <;> decide

theorem hexVal_hexChar (d : Nat) (h : d < 16) : hexVal (hexChar d) = d := by
  interval_cases d <;> decide

theorem parseStrAux_quote (acc X : List Char) :
    parseStrAux acc ('"' :: X) = some (String.mk acc.reverse, X) := rfl

theorem parseStrAux_esc_quote (acc X : List Char) :
    parseStrAux acc ('\\' :: '"' :: X) = parseStrAux ('"' :: acc) X := rfl

theorem parseStrAux_esc_backslash (acc X : List Char) :
    parseStrAux acc ('\\' :: '\\' :: X) = parseStrAux ('\\' :: acc) X := rfl

theorem parseStrAux_esc_n (acc X : List Char) :
    parseStrAux acc ('\\' :: 'n' :: X) = parseStrAux ('\n' :: acc) X := rfl

theorem parseStrAux_esc_t (acc X : List Char) :
    parseStrAux acc ('\\' :: 't' :: X) = parseStrAux ('\t' :: acc) X := rfl

theorem parseStrAux_esc_r (acc X : List Char) :
    parseStrAux acc ('\\' :: 'r' :: X) = parseStrAux ('\r' :: acc) X := rfl

theorem parseStrAux_esc_b (acc X : List Char) :
    parseStrAux acc ('\\' :: 'b' :: X) = parseStrAux ('\x08' :: acc) X := rfl

theorem parseStrAux_esc_f (acc X : List Char) :
    parseStrAux acc ('\\' :: 'f' :: X) = parseStrAux ('\x0c' :: acc) X := rfl

theorem parseStrAux_u_unfold (acc : List Char) (a b : Char) (X : List Char) :
    parseStrAux acc ('\\' :: 'u' :: '0' :: '0' :: a :: b :: X)
      = if isHexDigit '0' && isHexDigit '0' && isHexDigit a && isHexDigit b then
          parseStrAux
            (Char.ofNat (((hexVal '0' * 16 + hexVal '0') * 16 + hexVal a) * 16 + hexVal b)
              :: acc) X
        else none := rfl

theorem parseStrAux_u (acc : List Char) {c : Char} (h : c.toNat < 32) (X : List Char) :
    parseStrAux acc
        ('\\' :: 'u' :: '0' :: '0' :: hexChar (c.toNat / 16) :: hexChar (c.toNat % 16) :: X)
      = parseStrAux (c :: acc) X := by
  have hhi : c.toNat / 16 < 16 := by omega
  have hlo : c.toNat % 16 < 16 := Nat.mod_lt _ (by decide)
  have harg : ((hexVal '0' * 16 + hexVal '0') * 16 + hexVal (hexChar (c.toNat / 16))) * 16
      + hexVal (hexChar (c.toNat % 16)) = c.toNat := by
    rw [hexVal_hexChar _ hhi, hexVal_hexChar _ hlo]
    have h0 : hexVal '0' = 0 := rfl
    rw [h0]
    omega
  rw [parseStrAux_u_unfold]
  rw [if_pos (by rw [isHexDigit_hexChar _ hhi, isHexDigit_hexChar _ hlo]; rfl)]
  rw [harg, Char.ofNat_toNat]

theorem parseStrAux_raw (acc : List Char) {c : Char} (h1 : c ≠ '"') (h2 : c ≠ '\\')
    (h3 : ¬ c.toNat < 32) (X : List Char) :
    parseStrAux acc (c :: X) = parseStrAux (c :: acc) X := by
  simp [parseStrAux, h1, h2, h3]

theorem parseStrAux_escList (cs : List Char) :
    ∀ acc rest, parseStrAux acc (escList cs ++ '"' :: rest)
      = some (String.mk (acc.reverse ++ cs), rest) := by
  induction cs with
  | nil =>
    intro acc rest
    simp only [escList, List.nil_append, parseStrAux_quote, List.append_nil]
  | cons c cs IH =>
    intro acc rest
    simp only [escList, List.append_assoc]
    by_cases h1 : c = '"'
    · subst h1
      rw [show escChar '"' = ['\\', '"'] from rfl]
      simp only [List.cons_append, List.nil_append]
      rw [parseStrAux_esc_quote, IH]
      simp
    · by_cases h2 : c = '\\'
      · subst h2
        rw [show escChar '\\' = ['\\', '\\'] from rfl]
        simp only [List.cons_append, List.nil_append]
        rw [parseStrAux_esc_backslash, IH]
        simp
      · by_cases h3 : c = '\n'
        · subst h3
          rw [show escChar '\n' = ['\\', 'n'] from rfl]
          simp only [List.cons_append, List.nil_append]
          rw [parseStrAux_esc_n, IH]
          simp
        · by_cases h4 : c = '\t'
          · subst h4
            rw [show escChar '\t' = ['\\', 't'] from rfl]
            simp only [List.cons_append, List.nil_append]
            rw [parseStrAux_esc_t, IH]
            simp
          · by_cases h5 : c = '\r'
            · subst h5
              rw [show escChar '\r' = ['\\', 'r'] from rfl]
              simp only [List.cons_append, List.nil_append]
              rw [parseStrAux_esc_r, IH]
              simp
            · by_cases h6 : c = '\x08'
              · subst h6
                rw [show escChar '\x08' = ['\\', 'b'] from rfl]
                simp only [List.cons_append, List.nil_append]
                rw [parseStrAux_esc_b, IH]
                simp
              · by_cases h7 : c = '\x0c'
                · subst h7
                  rw [show escChar '\x0c' = ['\\', 'f'] from rfl]
                  simp only [List.cons_append, List.nil_append]
                  rw [parseStrAux_esc_f, IH]
                  simp
                · by_cases h8 : c.toNat < 32
                  · rw [show escChar c
                        = '\\' :: 'u' :: ['0', '0', hexChar (c.toNat / 16), hexChar (c.toNat % 16)]
                      from by simp [escChar, h1, h2, h3, h4, h5, h6, h7, h8]]
                    simp only [List.cons_append, List.nil_append]
                    rw [parseStrAux_u acc h8, IH]
                    simp
                  · rw [show escChar c = [c]
                      from by simp [escChar, h1, h2, h3, h4, h5, h6, h7, h8]]
                    simp only [List.cons_append, List.nil_append]
                    rw [parseStrAux_raw acc h1 h2 h8, IH]
                    simp

/-! ### Parser step lemmas -/

theorem strMk_data (s : String) : String.mk s.data = s := rfl

theorem parseV_null (f : Nat) (r : List Char) :
    parseV (f + 1) (['n', 'u', 'l', 'l'] ++ r) = some (Json.null, r) := rfl

theorem parseV_true (f : Nat) (r : List Char) :
    parseV (f + 1) (['t', 'r', 'u', 'e'] ++ r) = some (Json.bool true, r) := rfl

theorem parseV_false (f : Nat) (r : List Char) :
    parseV (f + 1) (['f', 'a', 'l', 's', 'e'] ++ r) = some (Json.bool false, r) := rfl

theorem parseV_quote (f : Nat) (r : List Char) :
    parseV (f + 1) ('"' :: r)
      = match parseStrAux [] r with
        | some (s, r2) => some (Json.str s, r2)
        | none => none := rfl

theorem parseV_lbrack (f : Nat) (r : List Char) :
    parseV (f + 1) ('[' :: r)
      = match parseArr f r with
        | some (vs, r2) => some (Json.arr vs, r2)
        | none => none := rfl

theorem parseV_lbrace (f : Nat) (r : List Char) :
    parseV (f + 1) ('\x7b' :: r)
      = match parseObj f r with
        | some (ms, r2) => some (Json.obj ms, r2)
        | none => none := rfl

theorem parseV_minus (f : Nat) (r : List Char) :
    parseV (f + 1) ('-' :: r)
      = match parseNatNum r with
        | some (m, r2) => some (Json.num (-(m : Int)), r2)
        | none => none := rfl

theorem parseV_digit (f : Nat) {c : Char} (h : c.isDigit = true) (r : List Char) :
    parseV (f + 1) (c :: r)
      = match parseNatNum (c :: r) with
        | some (m, r2) => some (Json.num (m : Int), r2)
        | none => none := by
  have hne := isDigit_ne_specials h
  show (parsersStep (parsers f)).val (c :: r) = _
  simp only [parsersStep]
  rw [skipWs_cons_of (isDigit_not_ws h)]
  simp [hne 'n' (by simp), hne 't' (by simp), hne 'f' (by simp), hne '"' (by simp),
    hne '[' (by simp), hne '\x7b' (by simp), hne '-' (by simp), h]

theorem parseArr_rbrack (f : Nat) (r : List Char) :
    parseArr (f + 1) (']' :: r) = some ([], r) := rfl

theorem parseArr_cons_eq (f : Nat) {c : Char} (r : List Char) (hws : isWs c = false)
    (hne : c ≠ ']') :
    parseArr (f + 1) (c :: r)
      = match parseV f (c :: r) with
        | some (v, r2) =>
          match parseArrTail f r2 with
          | some (vs, r3) => some (v :: vs, r3)
          | none => none
        | none => none := by
  show (parsersStep (parsers f)).arr (c :: r) = _
  simp only [parsersStep]
  rw [skipWs_cons_of hws]
  simp only [hne, ite_false]
  rfl

theorem parseArrTail_rbrack (f : Nat) (r : List Char) :
    parseArrTail (f + 1) (']' :: r) = some ([], r) := rfl

theorem parseArrTail_comma (f : Nat) (r : List Char) :
    parseArrTail (f + 1) (',' :: r)
      = match parseV f r with
        | some (v, r2) =>
          match parseArrTail f r2 with
          | some (vs, r3) => some (v :: vs, r3)
          | none => none
        | none => none := rfl

theorem parseObj_rbrace (f : Nat) (r : List Char) :
    parseObj (f + 1) ('\x7d' :: r) = some ([], r) := rfl

theorem parseObj_quote (f : Nat) (r : List Char) :
    parseObj (f + 1) ('"' :: r)
      = match parseStrAux [] r with
        | some (k, r2) =>
          match skipWs r2 with
          | ':' :: r3 =>
            match parseV f r3 with
            | some (v, r4) =>
              match parseObjTail f r4 with
              | some (ms, r5) => some ((k, v) :: ms, r5)
              | none => none
            | none => none
          | _ => none
        | none => none := rfl

theorem parseObjTail_rbrace (f : Nat) (r : List Char) :
    parseObjTail (f + 1) ('\x7d' :: r) = some ([], r) := rfl

theorem parseObjTail_comma (f : Nat) (r : List Char) :
    parseObjTail (f + 1) (',' :: r)
      = match skipWs r with
        | '"' :: r2 =>
          match parseStrAux [] r2 with
          | some (k, r3) =>
            match skipWs r3 with
            | ':' :: r4 =>
              match parseV f r4 with
              | some (v, r5) =>
                match parseObjTail f r5 with
                | some (ms, r6) => some ((k, v) :: ms, r6)
                | none => none
              | none => none
            | _ => none
          | none => none
        | _ => none := rfl

/-! ### Recursion measure for the round-trip proof -/

mutual

/-- Fuel bound sufficient to parse the encoding of a value. -/
def jsize : Json → Nat
  | .arr vs => 1 + jsizeElems vs
  | .obj ms => 1 + jsizeMembers ms
  | .null | .bool _ | .num _ | .str _ => 1

/-- Fuel bound sufficient to parse an encoded array body or tail. -/
def jsizeElems : List Json → Nat
  | [] => 1
  | v :: vs => 1 + max (jsize v) (jsizeElems vs)

/-- Fuel bound sufficient to parse an encoded object body or tail. -/
def jsizeMembers : List (String × Json) → Nat
  | (_, v) :: ms => 1 + max (jsize v) (jsizeMembers ms)
  | [] => 1

end

theorem jsize_pos (v : Json) : 1 ≤ jsize v := by
  cases v <;> simp [jsize]

theorem jsizeElems_pos (vs : List Json) : 1 ≤ jsizeElems vs := by
  cases vs <;> simp [jsizeElems]

theorem jsizeMembers_pos (ms : List (String × Json)) : 1 ≤ jsizeMembers ms := by
  cases ms with
  | nil => simp [jsizeMembers]
  | cons m ms => obtain ⟨k, v⟩ := m; simp [jsizeMembers]

/-! ### Heads of encodings -/

theorem noDigitHead_encElemsTail (vs : List Json) (rest : List Char) :
    noDigitHead (encElemsTail vs ++ rest) = true := by
  cases vs with
  | nil => simp [encElemsTail, noDigitHead]
  | cons v vs => simp [encElemsTail, noDigitHead]

theorem noDigitHead_encMembersTail (ms : List (String × Json)) (rest : List Char) :
    noDigitHead (encMembersTail ms ++ rest) = true := by
  cases ms with
  | nil => simp [encMembersTail, noDigitHead]
  | cons m ms => obtain ⟨k, v⟩ := m; simp [encMembersTail, noDigitHead]

theorem encV_head (v : Json) : ∃ c r, encV v = c :: r ∧ isWs c = false ∧ c ≠ ']' := by
  cases v with
  | null => refine ⟨'n', ['u', 'l', 'l'], by simp [encV], by decide, by decide⟩
  | bool b =>
    rcases b with _ | _
    · refine ⟨'f', ['a', 'l', 's', 'e'], by simp [encV], by decide, by decide⟩
    · refine ⟨'t', ['r', 'u', 'e'], by simp [encV], by decide, by decide⟩
  | num n =>
    by_cases hn : n < 0
    · exact ⟨'-', natDigits n.natAbs, by simp [encV, encInt, hn], by decide, by decide⟩
    · obtain ⟨d, ds, hd⟩ : ∃ d ds, natDigits n.toNat = d :: ds := by
        cases hnd : natDigits n.toNat with
        | nil => exact absurd hnd (natDigits_ne_nil _)
        | cons d ds => exact ⟨d, ds, rfl⟩
      have hdig : d.isDigit = true := natDigits_digits n.toNat d (by rw [hd]; simp)
      refine ⟨d, ds, by simp [encV, encInt, hn, hd], isDigit_not_ws hdig, ?_⟩
      exact isDigit_ne_specials hdig ']' (by simp)
  | str s => exact ⟨'"', escList s.data ++ ['"'], by simp [encV, encStr], by decide, by decide⟩
  | arr vs => exact ⟨'[', encArrBody vs, by simp [encV], by decide, by decide⟩
  | obj ms => exact ⟨'\x7b', encObjBody ms, by simp [encV], by decide, by decide⟩

theorem parseObj_quote_enc (f : Nat) (cs r3 : List Char) :
    parseObj (f + 1) ('"' :: (escList cs ++ '"' :: (':' :: r3)))
      = match parseV f r3 with
        | some (v, r4) =>
          match parseObjTail f r4 with
          | some (ms, r5) => some ((String.mk cs, v) :: ms, r5)
          | none => none
        | none => none := by
  rw [parseObj_quote, parseStrAux_escList]
  rfl

theorem parseObjTail_comma_quote (f : Nat) (X : List Char) :
    parseObjTail (f + 1) (',' :: '"' :: X) = parseObj (f + 1) ('"' :: X) := rfl

theorem parse_sound (f : Nat) :
    (∀ v rest, jsize v ≤ f → noDigitHead rest = true →
        parseV f (encV v ++ rest) = some (v, rest)) ∧
    (∀ vs rest, jsizeElems vs ≤ f → noDigitHead rest = true →
        parseArr f (encArrBody vs ++ rest) = some (vs, rest)) ∧
    (∀ vs rest, jsizeElems vs ≤ f → noDigitHead rest = true →
        parseArrTail f (encElemsTail vs ++ rest) = some (vs, rest)) ∧
    (∀ ms rest, jsizeMembers ms ≤ f → noDigitHead rest = true →
        parseObj f (encObjBody ms ++ rest) = some (ms, rest)) ∧
    (∀ ms rest, jsizeMembers ms ≤ f → noDigitHead rest = true →
        parseObjTail f (encMembersTail ms ++ rest) = some (ms, rest)) := by
  induction f using Nat.strong_induction_on with
  | _ f IH =>
    rcases f with _ | g
    · refine ⟨?vz, ?az, ?tz, ?oz, ?mz⟩
      · intro v rest hf _
        exact absurd (le_trans (jsize_pos v) hf) (by omega)
      · intro vs rest hf _
        exact absurd (le_trans (jsizeElems_pos vs) hf) (by omega)
      · intro vs rest hf _
        exact absurd (le_trans (jsizeElems_pos vs) hf) (by omega)
      · intro ms rest hf _
        exact absurd (le_trans (jsizeMembers_pos ms) hf) (by omega)
      · intro ms rest hf _
        exact absurd (le_trans (jsizeMembers_pos ms) hf) (by omega)
    · obtain ⟨IH1, IH2, IH3, IH4, IH5⟩ := IH g (by omega)
      refine ⟨?vstep, ?astep, ?tstep, ?ostep, ?mstep⟩
      · intro v rest hf hrest
        cases v with
        | null =>
          simp only [encV, List.cons_append, List.nil_append]
          exact parseV_null g rest
        | bool b =>
          cases b with
          | false =>
            simp only [encV, List.cons_append, List.nil_append]
            exact parseV_false g rest
          | true =>
            simp only [encV, List.cons_append, List.nil_append]
            exact parseV_true g rest
        | num n =>
          by_cases hn : n < 0
          · simp only [encV, encInt, hn, ite_true, List.cons_append]
            rw [parseV_minus, parseNatNum_natDigits _ _ hrest]
            have h2 : -((n.natAbs : Nat) : Int) = n := by omega
            show some (Json.num (-((n.natAbs : Nat) : Int)), rest) = some (Json.num n, rest)
            rw [h2]
          · obtain ⟨d, ds, hd⟩ : ∃ d ds, natDigits n.toNat = d :: ds := by
              cases hnd : natDigits n.toNat with
              | nil => exact absurd hnd (natDigits_ne_nil _)
              | cons d ds => exact ⟨d, ds, rfl⟩
            have hdig : d.isDigit = true := natDigits_digits n.toNat d (by rw [hd]; simp)
            simp only [encV, encInt, hn, ite_false]
            rw [hd, List.cons_append, parseV_digit g hdig, ← List.cons_append, ← hd,
              parseNatNum_natDigits _ _ hrest]
            have h2 : ((n.toNat : Nat) : Int) = n := by omega
            show some (Json.num ((n.toNat : Nat) : Int), rest) = some (Json.num n, rest)
            rw [h2]
        | str s =>
          simp only [encV, encStr, List.cons_append, List.append_assoc, List.singleton_append]
          rw [parseV_quote, parseStrAux_escList]
          simp [strMk_data]
        | arr vs =>
          have hsz : jsizeElems vs ≤ g := by
            simp [jsize] at hf
            omega
          simp only [encV, List.cons_append]
          rw [parseV_lbrack, IH2 vs rest hsz hrest]
        | obj ms =>
          have hsz : jsizeMembers ms ≤ g := by
            simp [jsize] at hf
            omega
          simp only [encV, List.cons_append]
          rw [parseV_lbrace, IH4 ms rest hsz hrest]
      · intro vs rest hf hrest
        cases vs with
        | nil =>
          simp only [encArrBody, List.cons_append, List.nil_append]
          exact parseArr_rbrack g rest
        | cons v vs =>
          have hsz : jsize v ≤ g ∧ jsizeElems vs ≤ g := by
            simp [jsizeElems] at hf
            omega
          obtain ⟨c, rr, hcr, hws, hne⟩ := encV_head v
          simp only [encArrBody, List.append_assoc]
          rw [hcr, List.cons_append, parseArr_cons_eq g _ hws hne, ← List.cons_append, ← hcr,
            IH1 v _ hsz.1 (noDigitHead_encElemsTail vs rest)]
          show (match parseArrTail g (encElemsTail vs ++ rest) with
                | some (vs2, r3) => some (v :: vs2, r3)
                | none => none) = some (v :: vs, rest)
          rw [IH3 vs rest hsz.2 hrest]
      · intro vs rest hf hrest
        cases vs with
        | nil =>
          simp only [encElemsTail, List.cons_append, List.nil_append]
          exact parseArrTail_rbrack g rest
        | cons v vs =>
          have hsz : jsize v ≤ g ∧ jsizeElems vs ≤ g := by
            simp [jsizeElems] at hf
            omega
          simp only [encElemsTail, List.cons_append, List.append_assoc]
          rw [parseArrTail_comma,
            IH1 v _ hsz.1 (noDigitHead_encElemsTail vs rest)]
          show (match parseArrTail g (encElemsTail vs ++ rest) with
                | some (vs2, r3) => some (v :: vs2, r3)
                | none => none) = some (v :: vs, rest)
          rw [IH3 vs rest hsz.2 hrest]
      · intro ms rest hf hrest
        cases ms with
        | nil =>
          simp only [encObjBody, List.cons_append, List.nil_append]
          exact parseObj_rbrace g rest
        | cons m ms =>
          obtain ⟨k, v⟩ := m
          have hsz : jsize v ≤ g ∧ jsizeMembers ms ≤ g := by
            simp [jsizeMembers] at hf
            omega
          simp only [encObjBody, encStr, List.cons_append, List.append_assoc,
            List.singleton_append, List.nil_append]
          rw [parseObj_quote_enc,
            IH1 v _ hsz.1 (noDigitHead_encMembersTail ms rest)]
          show (match parseObjTail g (encMembersTail ms ++ rest) with
                | some (ms2, r5) => some ((String.mk k.data, v) :: ms2, r5)
                | none => none) = some ((k, v) :: ms, rest)
          rw [IH5 ms rest hsz.2 hrest]
      · intro ms rest hf hrest
        cases ms with
        | nil =>
          simp only [encMembersTail, List.cons_append, List.nil_append]
          exact parseObjTail_rbrace g rest
        | cons m ms =>
          obtain ⟨k, v⟩ := m
          have hsz : jsize v ≤ g ∧ jsizeMembers ms ≤ g := by
            simp [jsizeMembers] at hf
            omega
          simp only [encMembersTail, encStr, List.cons_append, List.append_assoc,
            List.singleton_append, List.nil_append]
          rw [parseObjTail_comma_quote, parseObj_quote_enc,
            IH1 v _ hsz.1 (noDigitHead_encMembersTail ms rest)]
          show (match parseObjTail g (encMembersTail ms ++ rest) with
                | some (ms2, r5) => some ((String.mk k.data, v) :: ms2, r5)
                | none => none) = some ((k, v) :: ms, rest)
          rw [IH5 ms rest hsz.2 hrest]

/-! ### Fuel adequacy -/

theorem encV_length_pos (v : Json) : 1 ≤ (encV v).length := by
  obtain ⟨c, r, hcr, _, _⟩ := encV_head v
  rw [hcr]
  simp

theorem encStr_length_pos (s : String) : 1 ≤ (encStr s).length := by
  simp [encStr]

theorem encInt_length_pos (m : Int) : 1 ≤ (encInt m).length := by
  unfold encInt
  by_cases hm : m < 0
  · simp [hm]
  · simp only [hm, ite_false]
    cases hnd : natDigits m.toNat with
    | nil => exact absurd hnd (natDigits_ne_nil _)
    | cons d ds => simp

theorem encElemsTail_length_pos (vs : List Json) : 1 ≤ (encElemsTail vs).length := by
  cases vs with
  | nil => simp [encElemsTail]
  | cons v vs => simp [encElemsTail]

theorem encMembersTail_length_pos (ms : List (String × Json)) :
    1 ≤ (encMembersTail ms).length := by
  cases ms with
  | nil => simp [encMembersTail]
  | cons m ms => obtain ⟨k, v⟩ := m; simp [encMembersTail]

theorem jsize_le_enc_all (n : Nat) :
    (∀ v : Json, jsize v ≤ n → jsize v ≤ (encV v).length) ∧
    (∀ vs : List Json, jsizeElems vs ≤ n →
        jsizeElems vs ≤ (encArrBody vs).length ∧ jsizeElems vs ≤ (encElemsTail vs).length) ∧
    (∀ ms : List (String × Json), jsizeMembers ms ≤ n →
        jsizeMembers ms ≤ (encObjBody ms).length ∧
          jsizeMembers ms ≤ (encMembersTail ms).length) := by
  induction n using Nat.strong_induction_on with
  | _ n IH =>
    refine ⟨?_, ?_, ?_⟩
    · intro v hv
      cases v with
      | null => simp [jsize, encV]
      | bool b => cases b <;> simp [jsize, encV]
      | num m =>
        simp only [jsize, encV]
        exact encInt_length_pos m
      | str s =>
        simp only [jsize, encV]
        exact encStr_length_pos s
      | arr vs =>
        have h1 : jsizeElems vs < n := by
          simp [jsize] at hv
          omega
        have h2 := ((IH (jsizeElems vs) h1).2.1 vs (le_refl _)).1
        simp only [jsize, encV, List.length_cons]
        omega
      | obj ms =>
        have h1 : jsizeMembers ms < n := by
          simp [jsize] at hv
          omega
        have h2 := ((IH (jsizeMembers ms) h1).2.2 ms (le_refl _)).1
        simp only [jsize, encV, List.length_cons]
        omega
    · intro vs hvs
      cases vs with
      | nil => constructor <;> simp [jsizeElems, encArrBody, encElemsTail]
      | cons v vs2 =>
        have hlt1 : jsize v < n := by
          simp [jsizeElems] at hvs
          omega
        have hlt2 : jsizeElems vs2 < n := by
          simp [jsizeElems] at hvs
          omega
        have ha := (IH (jsize v) hlt1).1 v (le_refl _)
        have hb := ((IH (jsizeElems vs2) hlt2).2.1 vs2 (le_refl _)).2
        have hA := encV_length_pos v
        have hB := encElemsTail_length_pos vs2
        constructor
        · simp only [jsizeElems, encArrBody, List.length_append]
          omega
        · simp only [jsizeElems, encElemsTail, List.length_cons, List.length_append]
          omega
    · intro ms hms
      cases ms with
      | nil => constructor <;> simp [jsizeMembers, encObjBody, encMembersTail]
      | cons m ms2 =>
        obtain ⟨k, v⟩ := m
        have hlt1 : jsize v < n := by
          simp [jsizeMembers] at hms
          omega
        have hlt2 : jsizeMembers ms2 < n := by
          simp [jsizeMembers] at hms
          omega
        have ha := (IH (jsize v) hlt1).1 v (le_refl _)
        have hb := ((IH (jsizeMembers ms2) hlt2).2.2 ms2 (le_refl _)).2
        have hA := encV_length_pos v
        have hB := encMembersTail_length_pos ms2
        have hK := encStr_length_pos k
        constructor
        · simp only [jsizeMembers, encObjBody, List.length_append, List.length_cons]
          omega
        · simp only [jsizeMembers, encMembersTail, List.length_cons, List.length_append]
          omega

theorem jsize_le_encV (v : Json) : jsize v ≤ (encV v).length :=
  (jsize_le_enc_all (jsize v)).1 v (le_refl _)

/-- JSON round-trip: parsing the stringification of any value yields that
value back.  This is the key fact behind the write-path body round-trip. -/
theorem parse_stringify (v : Json) : Json.parse (Json.stringify v) = some v := by
  unfold Json.parse Json.stringify
  have hdata : (String.mk (encV v)).data = encV v := rfl
  have hlen : (String.mk (encV v)).length = (encV v).length := rfl
  rw [hdata, hlen]
  have h1 : parseV ((encV v).length + 1) (encV v ++ []) = some (v, []) :=
    (parse_sound ((encV v).length + 1)).1 v []
      (le_trans (jsize_le_encV v) (by omega)) rfl
  rw [List.append_nil] at h1
  rw [h1]
  simp [skipWs]

/-! ### Signing preserves the finalized descriptor fields -/

theorem aws4sign_body (creds : SignCreds) (ts : String) (d : RequestDescriptor) :
    (aws4sign creds ts d).body = d.body := rfl

theorem aws4sign_method (creds : SignCreds) (ts : String) (d : RequestDescriptor) :
    (aws4sign creds ts d).method = d.method := rfl

theorem aws4sign_path (creds : SignCreds) (ts : String) (d : RequestDescriptor) :
    (aws4sign creds ts d).path = d.path := rfl

/-! ### Claims -/

/-- C1: every HTTP response completion with status code at least 400 (and no
transport error) makes the transport callback reject the promise with a
JavaScript `Error` built from the template literal embedding the status code
and the raw response body; in particular the message contains the decimal
status code and the raw body text as substrings, so a 404 with body
`\x7b"message":"not found"\x7d` rejects with a message containing `404` and
`not found`.  All facade operations share this callback via `_request`. -/
theorem c1_http_error_rejection (code : Nat) (body : String) (h : 400 ≤ code) :
    requestCallback (.response code body)
        = .rejected (.jsError (Nat.repr code ++ ": " ++ body)) ∧
      containsStr (Nat.repr code ++ ": " ++ body) (Nat.repr code) ∧
      containsStr (Nat.repr code ++ ": " ++ body) body := by
  refine ⟨?_, ⟨"", ": " ++ body, ?_⟩, ⟨Nat.repr code ++ ": ", "", ?_⟩⟩
  · simp [requestCallback, h]
  · show Nat.repr code ++ ": " ++ body = Nat.repr code ++ (": " ++ body)
    exact String.append_assoc _ _ _
  · show Nat.repr code ++ ": " ++ body = Nat.repr code ++ ": " ++ body ++ ""
    rw [String.append_empty]

theorem c1_http_error_rejection_witness :
    400 ≤ 404 ∧
      requestCallback (.response 404 "\x7b\"message\":\"not found\"\x7d")
        = .rejected (.jsError "404: \x7b\"message\":\"not found\"\x7d") ∧
      containsStr "404: \x7b\"message\":\"not found\"\x7d" "404" ∧
      containsStr "404: \x7b\"message\":\"not found\"\x7d" "not found" := by
  have h := c1_http_error_rejection 404 "\x7b\"message\":\"not found\"\x7d" (by decide)
  exact ⟨by decide, h.1, h.2.1,
    ⟨"404: \x7b\"message\":\"", "\"\x7d", by decide⟩⟩

/-- C2: a transport-level failure makes the callback reject the promise with
the transport's error value itself, unmodified and unwrapped; the callback
returns immediately after `reject(err)`, so neither the status-code comparison
nor `JSON.parse` takes part in this completion, and nothing is retried. -/
theorem c2_transport_error_passthrough (e : TransportError) :
    requestCallback (.err e) = .rejected (.transport e) := rfl

/-- C3 (code bug): on a response with a successful status whose body is not
valid JSON, the callback evaluates `JSON.parse(resp.body)` as the argument of
`fulfill`; the parse failure is a throw inside the transport callback, escaping
uncaught, and the promise is never settled — the parse failure is raised
out-of-band, not propagated as a rejection.  Evaluated at status 200 with body
`not json`, the callback result is an uncaught throw (neither `fulfilled` nor
`rejected`). -/
theorem c3_parse_failure_uncaught :
    requestCallback (.response 200 "not json") = .uncaughtThrow "not json" := rfl

/-- C4 counterexample: a configuration object missing every required field
(apiUrl, accessKeyId and secretAccessKey all absent) still constructs
successfully — the constructor performs no validation and surfaces no
configuration error. -/
theorem c4_counterexample :
    construct { apiUrl := none, accessKeyId := none, secretAccessKey := none }
      = Except.ok
          { config := { apiUrl := none, accessKeyId := none, secretAccessKey := none }
            urls := { base := none } } := rfl

/-- C4 amended: constructing the client never fails, whatever required fields
are missing; the configuration object is stored as-is and the URL-builder
state is built from the possibly-absent apiUrl, so a missing credential can
only surface later (at signing/request time), not at construction. -/
theorem c4_construction_never_fails (config : Config) :
    construct config
      = Except.ok { config := config, urls := { base := config.apiUrl } } := rfl

/-- C5: for every truthy resource value (in particular every object) passed to
a write operation (`_createOrUpdate`, used by createZone, updateZone,
createRecordSet, updateRecordSet, createBatchChange, createGroup and
updateGroup), JSON-decoding the body string of the signed request dispatched
to the transport yields exactly the resource the caller passed. -/
theorem c5_write_body_roundtrip (creds : SignCreds) (now : String) (resource : Json)
    (url method : String) (h : jsTruthy resource = true) :
    Json.parse ((requestPipeline creds now (createOrUpdateOpts resource url method)).body)
      = some resource := by
  have hb : (requestPipeline creds now (createOrUpdateOpts resource url method)).body
      = Json.stringify resource := by
    rw [show (requestPipeline creds now (createOrUpdateOpts resource url method)).body
        = (requestOptions (createOrUpdateOpts resource url method)).body from rfl]
    simp [requestOptions, createOrUpdateOpts, h]
  rw [hb, parse_stringify]

theorem c5_write_body_roundtrip_witness :
    jsTruthy (Json.obj [("name", Json.str "team-a"), ("email", Json.str "a@x.com")]) = true ∧
      Json.parse ((requestPipeline { accessKeyId := "key", secretAccessKey := "secret" }
          "20190101T000000Z"
          (createOrUpdateOpts
            (Json.obj [("name", Json.str "team-a"), ("email", Json.str "a@x.com")])
            "http://host/groups" "post")).body)
        = some (Json.obj [("name", Json.str "team-a"), ("email", Json.str "a@x.com")]) :=
  ⟨rfl, c5_write_body_roundtrip _ _ _ _ _ rfl⟩

/-- C6: the descriptors built for Read/Delete operations (`_getOrDelete`, any
URL and verb) and for the zone-sync action (`_sync`, POST with no
caller-supplied body) carry the empty string as body, both as built by
`_requestOptions` and as signed and dispatched by `_request`. -/
theorem c6_bodyless_requests_empty_body (creds : SignCreds) (now url method : String) :
    (requestOptions (getOrDeleteOpts url method)).body = "" ∧
      (requestOptions (syncOpts url)).body = "" ∧
      (requestPipeline creds now (getOrDeleteOpts url method)).body = "" ∧
      (requestPipeline creds now (syncOpts url)).body = "" :=
  ⟨rfl, rfl, rfl, rfl⟩

/-- C7: for every operation, the request submitted to the transport is exactly
one application of the signer to the descriptor `_requestOptions` finalized —
nothing is modified after signing, the dispatched body/method/path are exactly
the signed-over descriptor's, and for a write the descriptor handed to the
signer already contains the final JSON-encoded body string. -/
theorem c7_sign_after_finalize (creds : SignCreds) (now : String) (opts : RequestOpts)
    (resource : Json) (url method : String) :
    requestPipeline creds now opts = aws4sign creds now (requestOptions opts) ∧
      (requestPipeline creds now opts).body = (requestOptions opts).body ∧
      (requestPipeline creds now opts).method = (requestOptions opts).method ∧
      (requestPipeline creds now opts).path = (requestOptions opts).path ∧
      (requestOptions (createOrUpdateOpts resource url method)).body
        = (if jsTruthy resource then Json.stringify resource else "") :=
  ⟨rfl, rfl, rfl, rfl, rfl⟩

/-- C8 (code bug): the promise does not settle exactly once for every
transport completion: on a successful status with a non-JSON body the callback
throws out of band (see C3), so neither `fulfill` nor `reject` is invoked —
that failure path is swallowed as far as the promise is concerned.  Evaluated
at status 200 with body `\x7b`, the callback result is an uncaught throw. -/
theorem c8_settlement_missed :
    requestCallback (.response 200 "\x7b") = .uncaughtThrow "\x7b" := rfl

/-- C9: the signing step is a pure function of the credential pair, the
timestamp and the finalized descriptor — two invocations on equal inputs
produce equal signed descriptors and in particular byte-identical header lists
(including the Authorization header).  Modelled from the spec: aws4 is an
external collaborator whose source is not in this repository. -/
theorem c9_signer_deterministic (cr1 cr2 : SignCreds) (t1 t2 : String)
    (d1 d2 : RequestDescriptor) (hc : cr1 = cr2) (ht : t1 = t2) (hd : d1 = d2) :
    aws4sign cr1 t1 d1 = aws4sign cr2 t2 d2 ∧
      (aws4sign cr1 t1 d1).headers = (aws4sign cr2 t2 d2).headers := by
  subst hc
  subst ht
  subst hd
  exact ⟨rfl, rfl⟩

theorem c9_signer_deterministic_witness :
    aws4sign { accessKeyId := "k", secretAccessKey := "s" } "20190101T000000Z"
        (requestOptions (getOrDeleteOpts "http://host/zones/abc123" "get"))
      = aws4sign { accessKeyId := "k", secretAccessKey := "s" } "20190101T000000Z"
        (requestOptions (getOrDeleteOpts "http://host/zones/abc123" "get")) ∧
      (aws4sign { accessKeyId := "k", secretAccessKey := "s" } "20190101T000000Z"
          (requestOptions (getOrDeleteOpts "http://host/zones/abc123" "get"))).headers
        = (aws4sign { accessKeyId := "k", secretAccessKey := "s" } "20190101T000000Z"
            (requestOptions (getOrDeleteOpts "http://host/zones/abc123" "get"))).headers :=
  c9_signer_deterministic _ _ _ _ _ _ rfl rfl rfl

/-- C10: every descriptor built by `_requestOptions` — for every facade
operation, including bodyless GET and DELETE — carries exactly the header list
`Content-Type: application/json`; its method is the uppercased verb when one
is supplied (and nonempty), and defaults to `GET` when no verb is given. -/
theorem c10_headers_and_method (opts : RequestOpts) :
    (requestOptions opts).headers = [("Content-Type", "application/json")] ∧
      (opts.method = none → (requestOptions opts).method = "GET") ∧
      (∀ m, opts.method = some m → m ≠ "" →
        (requestOptions opts).method = jsToUpperCase m) := by
  refine ⟨rfl, ?_, ?_⟩
  · intro hm
    simp [requestOptions, hm]
  · intro m hm hne
    simp [requestOptions, hm, hne]

theorem c10_headers_and_method_witness :
    (requestOptions (getOrDeleteOpts "http://host/zones" "get")).headers
        = [("Content-Type", "application/json")] ∧
      (requestOptions (getOrDeleteOpts "http://host/zones" "get")).method = "GET" := by
  have h := c10_headers_and_method (getOrDeleteOpts "http://host/zones" "get")
  refine ⟨h.1, ?_⟩
  rw [h.2.2 "get" rfl (by decide)]
  rfl
